import Mathlib

/-!
Verification of the session-acquisition and caching pipeline of
`scriptable-mijnsimpel.js`.

The JavaScript source is shallowly embedded:

* JSON documents are the inductive type `Json` (numbers are modelled as
  integers; the pipeline only ever handles integral numbers such as HTTP
  status codes and usage amounts).
* The host primitives `JSON.stringify` / `JSON.parse` are modelled by an
  executable printer (`stringifyChars`) and parser (`parseVal`), so that
  the cache round-trip is a genuine theorem about serialization.
* The iCloud file store is a `Cache`, an association list from file name
  to file contents (a string); `getCachedData` / `cacheData` mirror the
  source functions of the same names.
* Thrown JavaScript exceptions are `Except JsError` results; the
  orchestrator `run` and the stage functions `fetchToken`, `fetchSid`,
  `fetchData` mirror the source's control flow, and additionally record
  the list of observable `Event`s (credential prompt, network requests)
  in source order.
-/

namespace MijnSimpel

/-- JSON values, the data model of every cached artifact and of every
response body the script parses.  Numbers are modelled as integers. -/
inductive Json where
  | null
  | bool (b : Bool)
  | num (n : Int)
  | str (s : String)
  | arr (elems : List Json)
  | obj (fields : List (String × Json))

/-- The decimal digit character for `n < 10` (`9` for larger inputs). -/
def digitChar : Nat → Char
  | 0 => '0' | 1 => '1' | 2 => '2' | 3 => '3' | 4 => '4'
  | 5 => '5' | 6 => '6' | 7 => '7' | 8 => '8' | _ => '9'

/-- Decimal digits of a natural number, most significant first. -/
def natToDigits (n : Nat) : List Char :=
  if h : n < 10 then [digitChar n]
  else natToDigits (n / 10) ++ [digitChar (n % 10)]
termination_by n
decreasing_by omega

/-- Decimal representation of an integer, as `JSON.stringify` prints it. -/
def intToChars (i : Int) : List Char :=
  if i < 0 then '-' :: natToDigits i.natAbs else natToDigits i.toNat

/-- How `JSON.stringify` escapes one character inside a string literal. -/
def escapeChar (c : Char) : List Char :=
  if c = '"' then ['\\', '"']
  else if c = '\\' then ['\\', '\\']
  else if c = '\n' then ['\\', 'n']
  else if c = '\t' then ['\\', 't']
  else if c = '\r' then ['\\', 'r']
  else if c = '\x08' then ['\\', 'b']
  else if c = '\x0c' then ['\\', 'f']
  else [c]

/-- Escape every character of a string body. -/
def escapeList : List Char → List Char
  | [] => []
  | c :: cs => escapeChar c ++ escapeList cs

/-- A JSON string literal: quoted and escaped. -/
def stringifyString (s : String) : List Char :=
  '"' :: (escapeList s.data ++ ['"'])

mutual

/-- Model of `JSON.stringify` (producing a character list): the exact
compact serialization used when the script writes a cache file. -/
def stringifyChars : Json → List Char
  | .null => "null".data
  | .bool true => "true".data
  | .bool false => "false".data
  | .num i => intToChars i
  | .str s => stringifyString s
  | .arr [] => ['[', ']']
  | .arr (v :: vs) => '[' :: ((stringifyChars v ++ stringifyArrTail vs) ++ [']'])
  | .obj [] => ['\x7b', '\x7d']
  | .obj (f :: fs) => '\x7b' :: ((stringifyField f ++ stringifyObjTail fs) ++ ['\x7d'])

/-- Remaining array elements, each preceded by a comma. -/
def stringifyArrTail : List Json → List Char
  | [] => []
  | v :: vs => ',' :: (stringifyChars v ++ stringifyArrTail vs)

/-- One object field: quoted key, colon, value. -/
def stringifyField : String × Json → List Char
  | (k, v) => stringifyString k ++ (':' :: stringifyChars v)

/-- Remaining object fields, each preceded by a comma. -/
def stringifyObjTail : List (String × Json) → List Char
  | [] => []
  | f :: fs => ',' :: (stringifyField f ++ stringifyObjTail fs)

end

theorem nullChars : ("null" : String).data = ['n', 'u', 'l', 'l'] := rfl

theorem trueChars : ("true" : String).data = ['t', 'r', 'u', 'e'] := rfl

theorem falseChars : ("false" : String).data = ['f', 'a', 'l', 's', 'e'] := rfl

/-! ## Model of `JSON.parse` -/

/-- Numeric value of a decimal digit character, if it is one. -/
def digit? (c : Char) : Option Nat :=
  if 48 ≤ c.toNat ∧ c.toNat ≤ 57 then some (c.toNat - 48) else none

/-- Consume a maximal run of decimal digits, accumulating their value. -/
def parseNatAux (acc : Nat) : List Char → Nat × List Char
  | [] => (acc, [])
  | c :: cs =>
    match digit? c with
    | some d => parseNatAux (acc * 10 + d) cs
    | none => (acc, c :: cs)

/-- Parse a natural number (at least one digit required). -/
def parseNat : List Char → Option (Nat × List Char)
  | [] => none
  | c :: cs =>
    match digit? c with
    | some _ => some (parseNatAux 0 (c :: cs))
    | none => none

/-- Interpretation of a string-literal escape code. -/
def unescapeChar (c : Char) : Option Char :=
  if c = '"' then some '"'
  else if c = '\\' then some '\\'
  else if c = '/' then some '/'
  else if c = 'n' then some '\n'
  else if c = 't' then some '\t'
  else if c = 'r' then some '\r'
  else if c = 'b' then some '\x08'
  else if c = 'f' then some '\x0c'
  else none

/-- Parse the body of a string literal up to and including the closing
quote, undoing escapes; returns the decoded characters and the rest. -/
def parseStringAux : List Char → Option (List Char × List Char)
  | [] => none
  | c :: rest =>
    if c = '"' then some ([], rest)
    else if c = '\\' then
      match rest with
      | [] => none
      | e :: rest2 =>
        match unescapeChar e, parseStringAux rest2 with
        | some u, some (s, r) => some (u :: s, r)
        | _, _ => none
    else
      match parseStringAux rest with
      | some (s, r) => some (c :: s, r)
      | none => none

/-- Consume an expected literal character sequence. -/
def dropPref : List Char → List Char → Option (List Char)
  | [], rest => some rest
  | _ :: _, [] => none
  | p :: ps, c :: cs => if c = p then dropPref ps cs else none

mutual

/-- Model of `JSON.parse` on raw characters: parse one JSON value and
return it with the unconsumed rest.  `fuel` bounds the recursion depth. -/
def parseVal : Nat → List Char → Option (Json × List Char)
  | 0, _ => none
  | _ + 1, [] => none
  | fuel + 1, c :: rest =>
    if c = 'n' then
      match dropPref ['u', 'l', 'l'] rest with
      | some r => some (.null, r)
      | none => none
    else if c = 't' then
      match dropPref ['r', 'u', 'e'] rest with
      | some r => some (.bool true, r)
      | none => none
    else if c = 'f' then
      match dropPref ['a', 'l', 's', 'e'] rest with
      | some r => some (.bool false, r)
      | none => none
    else if c = '"' then
      match parseStringAux rest with
      | some (s, r) => some (.str (String.mk s), r)
      | none => none
    else if c = '[' then
      match rest with
      | [] => none
      | c2 :: rest2 =>
        if c2 = ']' then some (.arr [], rest2)
        else
          match parseElems fuel (c2 :: rest2) with
          | some (xs, r) => some (.arr xs, r)
          | none => none
    else if c = '\x7b' then
      match rest with
      | [] => none
      | c2 :: rest2 =>
        if c2 = '\x7d' then some (.obj [], rest2)
        else
          match parseFields fuel (c2 :: rest2) with
          | some (fs, r) => some (.obj fs, r)
          | none => none
    else if c = '-' then
      match parseNat rest with
      | some (n, r) => some (.num (-(n : Int)), r)
      | none => none
    else
      match digit? c with
      | some _ =>
        match parseNat (c :: rest) with
        | some (n, r) => some (.num ((n : Int)), r)
        | none => none
      | none => none

/-- Parse the elements of a non-empty array, consuming the closing `]`. -/
def parseElems : Nat → List Char → Option (List Json × List Char)
  | 0, _ => none
  | fuel + 1, input =>
    match parseVal fuel input with
    | none => none
    | some (v, r) =>
      match r with
      | [] => none
      | c :: r2 =>
        if c = ',' then
          match parseElems fuel r2 with
          | some (xs, r3) => some (v :: xs, r3)
          | none => none
        else if c = ']' then some ([v], r2)
        else none

/-- Parse the fields of a non-empty object, consuming the closing brace. -/
def parseFields : Nat → List Char → Option (List (String × Json) × List Char)
  | 0, _ => none
  | fuel + 1, input =>
    match input with
    | [] => none
    | c :: rest =>
      if c = '"' then
        match parseStringAux rest with
        | none => none
        | some (k, r) =>
          match r with
          | [] => none
          | c2 :: r2 =>
            if c2 = ':' then
              match parseVal fuel r2 with
              | none => none
              | some (v, r3) =>
                match r3 with
                | [] => none
                | c3 :: r4 =>
                  if c3 = ',' then
                    match parseFields fuel r4 with
                    | some (fs, r5) => some ((String.mk k, v) :: fs, r5)
                    | none => none
                  else if c3 = '\x7d' then some ([(String.mk k, v)], r4)
                  else none
            else none
      else none

end

/-- Model of `JSON.stringify` as the script calls it: defined (a string)
exactly on defined inputs; `JSON.stringify(undefined)` is `undefined`,
modelled as `none`. -/
def jsonStringify : Option Json → Option String
  | none => none
  | some v => some (String.mk (stringifyChars v))

/-- Model of `JSON.parse` on a whole string: the input must be exactly
one JSON value.  `none` models a thrown `SyntaxError`. -/
def jsonParse (s : String) : Option Json :=
  match parseVal (s.data.length + 1) s.data with
  | some (v, []) => some v
  | _ => none

/-! ## Round-trip: the parser inverts the printer -/

/-- The continuation after a printed value must not begin with a digit
(otherwise the maximal-munch number parser would consume it). -/
def digitFree : List Char → Bool
  | [] => true
  | c :: _ => (digit? c).isNone

theorem digit?_digitChar {d : Nat} (hd : d < 10) : digit? (digitChar d) = some d := by
  interval_cases d <;> decide

theorem parseNatAux_stop {acc : Nat} {rest : List Char} (h : digitFree rest = true) :
    parseNatAux acc rest = (acc, rest) := by
  cases rest with
  | nil => rfl
  | cons c cs =>
    simp only [digitFree, Option.isNone_iff_eq_none] at h
    simp [parseNatAux, h]

theorem natToDigits_ne_nil (n : Nat) : natToDigits n ≠ [] := by
  rw [natToDigits]
  split
  · simp
  · simp

theorem natToDigits_head (n : Nat) :
    ∃ d t, natToDigits n = digitChar d :: t ∧ d < 10 := by
  induction n using Nat.strong_induction_on with
  | _ n ih =>
    rw [natToDigits]
    split
    · next h => exact ⟨n, [], rfl, h⟩
    · next h =>
      obtain ⟨d, t, ht, hd⟩ := ih (n / 10) (by omega)
      exact ⟨d, t ++ [digitChar (n % 10)], by rw [ht]; rfl, hd⟩

theorem parseNatAux_digits (n : Nat) :
    ∀ (acc : Nat) (rest : List Char),
      parseNatAux acc (natToDigits n ++ rest) =
        parseNatAux (acc * 10 ^ (natToDigits n).length + n) rest := by
  induction n using Nat.strong_induction_on with
  | _ n ih =>
    intro acc rest
    rw [natToDigits]
    split
    · next h =>
      simp only [List.singleton_append, List.length_singleton, parseNatAux,
        digit?_digitChar h]
      norm_num
    · next h =>
      rw [List.append_assoc, ih (n / 10) (by omega), List.length_append]
      simp only [List.singleton_append, List.length_singleton, parseNatAux,
        digit?_digitChar (Nat.mod_lt n (by omega))]
      congr 1
      have hlen : (0 : Nat) ≤ (natToDigits (n / 10)).length := Nat.zero_le _
      rw [pow_succ]
      generalize (10 : Nat) ^ (natToDigits (n / 10)).length = B
      have := Nat.div_add_mod n 10
      generalize hA : acc * B = A
      rw [← Nat.mul_assoc, hA]
      omega

theorem parseNat_digits {rest : List Char} (n : Nat) (h : digitFree rest = true) :
    parseNat (natToDigits n ++ rest) = some (n, rest) := by
  obtain ⟨d, t, ht, hd⟩ := natToDigits_head n
  rw [ht]
  simp only [List.cons_append, parseNat, digit?_digitChar hd]
  rw [← List.cons_append, ← ht, parseNatAux_digits, parseNatAux_stop h]
  simp

theorem parseStringAux_escape (l rest : List Char) :
    parseStringAux (escapeList l ++ '"' :: rest) = some (l, rest) := by
  induction l with
  | nil =>
    simp only [escapeList, List.nil_append]
    unfold parseStringAux
    simp
  | cons c cs ih =>
    simp only [escapeList, List.append_assoc]
    by_cases h1 : c = '"'
    · subst h1; simp only [escapeChar, if_pos rfl, List.cons_append]
      unfold parseStringAux
      simp [unescapeChar, ih]
    · by_cases h2 : c = '\\'
      · subst h2; simp only [escapeChar]
        norm_num only
        unfold parseStringAux
        simp [unescapeChar, ih]
      · by_cases h3 : c = '\n'
        · subst h3; simp only [escapeChar]
          norm_num only
          unfold parseStringAux
          simp [unescapeChar, ih]
        · by_cases h4 : c = '\t'
          · subst h4; simp only [escapeChar]
            norm_num only
            unfold parseStringAux
            simp [unescapeChar, ih]
          · by_cases h5 : c = '\r'
            · subst h5; simp only [escapeChar]
              norm_num only
              unfold parseStringAux
              simp [unescapeChar, ih]
            · by_cases h6 : c = '\x08'
              · subst h6; simp only [escapeChar]
                norm_num only
                unfold parseStringAux
                simp [unescapeChar, ih]
              · by_cases h7 : c = '\x0c'
                · subst h7; simp only [escapeChar]
                  norm_num only
                  unfold parseStringAux
                  simp [unescapeChar, ih]
                · rw [escapeChar, if_neg h1, if_neg h2, if_neg h3, if_neg h4,
                    if_neg h5, if_neg h6, if_neg h7]
                  simp only [List.singleton_append]
                  unfold parseStringAux
                  simp only [if_neg h1, if_neg h2, ih]

theorem dropPref_append (p rest : List Char) : dropPref p (p ++ rest) = some rest := by
  induction p with
  | nil => rfl
  | cons c cs ih => simp [dropPref, ih]

mutual

/-- Parser fuel sufficient for one value. -/
def jsonFuel : Json → Nat
  | .null => 1
  | .bool _ => 1
  | .num _ => 1
  | .str _ => 1
  | .arr [] => 1
  | .arr (v :: vs) => 1 + elemsFuel v vs
  | .obj [] => 1
  | .obj (f :: fs) => 1 + fieldsFuel f fs
termination_by v => sizeOf v

/-- Parser fuel sufficient for a non-empty element list. -/
def elemsFuel : Json → List Json → Nat
  | v, [] => 1 + jsonFuel v
  | v, w :: ws => 1 + jsonFuel v + elemsFuel w ws
termination_by v vs => sizeOf v + sizeOf vs

/-- Parser fuel sufficient for a non-empty field list. -/
def fieldsFuel : String × Json → List (String × Json) → Nat
  | (_, v), [] => 1 + jsonFuel v
  | (_, v), f :: fs => 1 + jsonFuel v + fieldsFuel f fs
termination_by f fs => sizeOf f + sizeOf fs

end

theorem one_le_jsonFuel (v : Json) : 1 ≤ jsonFuel v := by
  cases v with
  | arr elems => cases elems <;> simp [jsonFuel]
  | obj fields => cases fields <;> simp [jsonFuel]
  | _ => simp [jsonFuel]

theorem one_le_elemsFuel (v : Json) (vs : List Json) : 1 ≤ elemsFuel v vs := by
  cases vs <;> simp [elemsFuel] <;> omega

theorem one_le_fieldsFuel (f : String × Json) (fs : List (String × Json)) :
    1 ≤ fieldsFuel f fs := by
  obtain ⟨k, x⟩ := f
  cases fs <;> simp [fieldsFuel] <;> omega

theorem data_mk (l : List Char) : (String.mk l).data = l := rfl

theorem mk_data (s : String) : String.mk s.data = s := rfl

/-- The first printed character of a value is never `]` (so the parser's
empty-array test cannot fire on a printed first element). -/
theorem stringifyChars_head (v : Json) :
    ∃ c t, stringifyChars v = c :: t ∧ c ≠ ']' := by
  cases v with
  | null => exact ⟨'n', ['u', 'l', 'l'], by simp [stringifyChars, nullChars], by decide⟩
  | bool b =>
    cases b with
    | true => exact ⟨'t', ['r', 'u', 'e'], by simp [stringifyChars, trueChars], by decide⟩
    | false =>
      exact ⟨'f', ['a', 'l', 's', 'e'], by simp [stringifyChars, falseChars], by decide⟩
  | num i =>
    by_cases hi : i < 0
    · exact ⟨'-', natToDigits i.natAbs, by simp [stringifyChars, intToChars, hi],
        by decide⟩
    · obtain ⟨d, t, ht, hd⟩ := natToDigits_head i.toNat
      refine ⟨digitChar d, t, by simp [stringifyChars, intToChars, hi, ht], ?_⟩
      intro h
      have h1 := digit?_digitChar hd
      rw [h] at h1
      have h2 : (digit? ']').isSome = true := by rw [h1]; rfl
      exact absurd h2 (by decide)
  | str s =>
    exact ⟨'"', escapeList s.data ++ ['"'],
      by simp [stringifyChars, stringifyString], by decide⟩
  | arr elems =>
    cases elems with
    | nil => exact ⟨'[', [']'], by simp [stringifyChars], by decide⟩
    | cons v vs =>
      exact ⟨'[', (stringifyChars v ++ stringifyArrTail vs) ++ [']'],
        by simp [stringifyChars], by decide⟩
  | obj fields =>
    cases fields with
    | nil => exact ⟨'\x7b', ['\x7d'], by simp [stringifyChars], by decide⟩
    | cons f fs =>
      exact ⟨'\x7b', (stringifyField f ++ stringifyObjTail fs) ++ ['\x7d'],
        by simp [stringifyChars], by decide⟩

theorem digitFree_rb (l : List Char) : digitFree (']' :: l) = true := by
  simp [digitFree, digit?]

theorem digitFree_comma (l : List Char) : digitFree (',' :: l) = true := by
  simp [digitFree, digit?]

theorem digitFree_cb (l : List Char) : digitFree ('\x7d' :: l) = true := by
  simp [digitFree, digit?]

/-- Parsing a printed value (followed by any non-digit continuation)
returns exactly that value and the continuation, for every sufficient
fuel; likewise for printed array-element lists and object-field lists. -/
theorem roundtrip_all (fuel : Nat) :
    (∀ v rest, jsonFuel v ≤ fuel → digitFree rest = true →
      parseVal fuel (stringifyChars v ++ rest) = some (v, rest)) ∧
    (∀ v vs rest, elemsFuel v vs ≤ fuel →
      parseElems fuel (stringifyChars v ++ (stringifyArrTail vs ++ ']' :: rest)) =
        some (v :: vs, rest)) ∧
    (∀ k x fs rest, fieldsFuel (k, x) fs ≤ fuel →
      parseFields fuel (stringifyField (k, x) ++ (stringifyObjTail fs ++ '\x7d' :: rest)) =
        some ((k, x) :: fs, rest)) := by
  induction fuel with
  | zero =>
    refine ⟨?_, ?_, ?_⟩
    · intro v rest hf _
      exact absurd hf (by have := one_le_jsonFuel v; omega)
    · intro v vs rest hf
      exact absurd hf (by have := one_le_elemsFuel v vs; omega)
    · intro k x fs rest hf
      exact absurd hf (by have := one_le_fieldsFuel (k, x) fs; omega)
  | succ fuel ih =>
    obtain ⟨ihV, ihE, ihF⟩ := ih
    refine ⟨?_, ?_, ?_⟩
    · -- values
      intro v rest hf hd
      cases v with
      | null => simp [stringifyChars, nullChars, parseVal, dropPref]
      | bool b => cases b <;> simp [stringifyChars, nullChars, trueChars, falseChars, parseVal, dropPref]
      | num i =>
        by_cases hi : i < 0
        · simp only [stringifyChars, intToChars, if_pos hi, List.cons_append]
          simp only [parseVal]
          rw [parseNat_digits _ hd]
          simp
          rw [abs_of_neg hi]
          omega
        · obtain ⟨d, t, ht, hd10⟩ := natToDigits_head i.toNat
          simp only [stringifyChars, intToChars, if_neg hi, ht, List.cons_append]
          have hsp : digitChar d ≠ 'n' ∧ digitChar d ≠ 't' ∧ digitChar d ≠ 'f' ∧
              digitChar d ≠ '"' ∧ digitChar d ≠ '[' ∧ digitChar d ≠ '\x7b' ∧
              digitChar d ≠ '-' := by
            interval_cases d <;> exact ⟨by decide, by decide, by decide, by decide,
              by decide, by decide, by decide⟩
          obtain ⟨h1, h2, h3, h4, h5, h6, h7⟩ := hsp
          simp only [parseVal, if_neg h1, if_neg h2, if_neg h3, if_neg h4, if_neg h5,
            if_neg h6, if_neg h7, digit?_digitChar hd10]
          rw [← List.cons_append, ← ht, parseNat_digits _ hd]
          simp only [Option.some.injEq, Prod.mk.injEq, and_true, Json.num.injEq]
          omega
      | str s =>
        simp only [stringifyChars, stringifyString, List.cons_append, List.append_assoc,
          List.singleton_append]
        simp [parseVal, parseStringAux_escape, mk_data]
      | arr elems =>
        cases elems with
        | nil => simp [stringifyChars, parseVal]
        | cons v vs =>
          have hf' : elemsFuel v vs ≤ fuel := by
            simp only [jsonFuel] at hf; omega
          obtain ⟨c0, t0, hsc, hne⟩ := stringifyChars_head v
          have he := ihE v vs rest hf'
          rw [hsc] at he
          simp only [List.cons_append] at he
          simp only [stringifyChars, hsc, List.cons_append, List.append_assoc,
            List.singleton_append]
          simp [parseVal, hne, he]
      | obj fields =>
        cases fields with
        | nil => simp [stringifyChars, parseVal]
        | cons f fs =>
          obtain ⟨k, x⟩ := f
          have hf' : fieldsFuel (k, x) fs ≤ fuel := by
            simp only [jsonFuel] at hf; omega
          have he := ihF k x fs rest hf'
          simp only [stringifyField, stringifyString, List.cons_append,
            List.append_assoc, List.singleton_append, List.nil_append] at he
          simp only [stringifyChars, stringifyField, stringifyString, List.cons_append,
            List.append_assoc, List.singleton_append, List.nil_append]
          simp [parseVal, he]
    · -- array element lists
      intro v vs rest hf
      cases vs with
      | nil =>
        have hfv : jsonFuel v ≤ fuel := by
          simp only [elemsFuel] at hf; omega
        have hv := ihV v (']' :: rest) hfv (digitFree_rb rest)
        simp only [stringifyArrTail, List.nil_append]
        simp [parseElems, hv]
      | cons w ws =>
        have hfv : jsonFuel v ≤ fuel := by
          simp only [elemsFuel] at hf; omega
        have hfe : elemsFuel w ws ≤ fuel := by
          simp only [elemsFuel] at hf; omega
        have hv := ihV v
          (',' :: (stringifyChars w ++ (stringifyArrTail ws ++ ']' :: rest)))
          hfv (digitFree_comma _)
        have hw := ihE w ws rest hfe
        simp only [stringifyArrTail, List.cons_append, List.append_assoc] at hv ⊢
        simp [parseElems, hv, hw]
    · -- object field lists
      intro k x fs rest hf
      cases fs with
      | nil =>
        have hfx : jsonFuel x ≤ fuel := by
          simp only [fieldsFuel] at hf; omega
        have hx := ihV x ('\x7d' :: rest) hfx (digitFree_cb rest)
        simp only [stringifyField, stringifyString, stringifyObjTail, List.nil_append,
          List.cons_append, List.append_assoc, List.singleton_append]
        simp [parseFields, parseStringAux_escape, hx, mk_data]
      | cons f2 fs2 =>
        obtain ⟨k2, x2⟩ := f2
        have hfx : jsonFuel x ≤ fuel := by
          simp only [fieldsFuel] at hf; omega
        have hfr : fieldsFuel (k2, x2) fs2 ≤ fuel := by
          simp only [fieldsFuel] at hf; omega
        have hx := ihV x
          (',' :: (stringifyField (k2, x2) ++ (stringifyObjTail fs2 ++ '\x7d' :: rest)))
          hfx (digitFree_comma _)
        have hr := ihF k2 x2 fs2 rest hfr
        simp only [stringifyField, stringifyString, stringifyObjTail, List.cons_append,
          List.append_assoc, List.singleton_append, List.nil_append] at hx hr ⊢
        simp [parseFields, parseStringAux_escape, hx, hr, mk_data]

mutual

/-- The printed length of a value bounds its required parser fuel. -/
theorem jsonFuel_le_len : (v : Json) → jsonFuel v ≤ (stringifyChars v).length
  | .null => by simp [jsonFuel, stringifyChars, nullChars]
  | .bool b => by cases b <;> simp [jsonFuel, stringifyChars, nullChars, trueChars, falseChars]
  | .num i => by
    simp only [jsonFuel, stringifyChars]
    have h : intToChars i ≠ [] := by
      unfold intToChars
      split
      · simp
      · exact natToDigits_ne_nil _
    have := List.length_pos.mpr h
    omega
  | .str s => by simp [jsonFuel, stringifyChars, stringifyString]
  | .arr [] => by simp [jsonFuel, stringifyChars]
  | .arr (v :: vs) => by
    have h := elemsFuel_le_len v vs
    simp only [jsonFuel, stringifyChars]
    simp only [List.length_cons, List.length_append, List.length_singleton]
    omega
  | .obj [] => by simp [jsonFuel, stringifyChars]
  | .obj (f :: fs) => by
    have h := fieldsFuel_le_len f fs
    simp only [jsonFuel, stringifyChars]
    simp only [List.length_cons, List.length_append, List.length_singleton]
    omega
termination_by v => sizeOf v

/-- Fuel bound for a printed element list. -/
theorem elemsFuel_le_len : (v : Json) → (vs : List Json) →
    elemsFuel v vs ≤ 1 + (stringifyChars v).length + (stringifyArrTail vs).length
  | v, [] => by
    have := jsonFuel_le_len v
    simp only [elemsFuel, stringifyArrTail, List.length_nil]
    omega
  | v, w :: ws => by
    have h1 := jsonFuel_le_len v
    have h2 := elemsFuel_le_len w ws
    simp only [elemsFuel, stringifyArrTail, List.length_cons, List.length_append]
    omega
termination_by v vs => sizeOf v + sizeOf vs

/-- Fuel bound for a printed field list. -/
theorem fieldsFuel_le_len : (f : String × Json) → (fs : List (String × Json)) →
    fieldsFuel f fs ≤ (stringifyField f).length + (stringifyObjTail fs).length
  | (k, x), [] => by
    have := jsonFuel_le_len x
    simp only [fieldsFuel, stringifyField, stringifyString, stringifyObjTail,
      List.length_nil, List.length_append, List.length_cons]
    omega
  | (k, x), f2 :: fs2 => by
    have h1 := jsonFuel_le_len x
    have h2 := fieldsFuel_le_len f2 fs2
    simp only [fieldsFuel, stringifyField, stringifyString, stringifyObjTail,
      List.length_cons, List.length_append]
    omega
termination_by f fs => sizeOf f + sizeOf fs

end

/-- `JSON.parse` inverts `JSON.stringify`: the cache round-trip at the
level of serialized text. -/
theorem jsonParse_stringify (v : Json) :
    jsonParse (String.mk (stringifyChars v)) = some v := by
  have hb := jsonFuel_le_len v
  have h := (roundtrip_all ((stringifyChars v).length + 1)).1 v [] (by omega) rfl
  rw [List.append_nil] at h
  simp [jsonParse, data_mk, h]

/-! ## The cache store (`getCachedData` / `cacheData`)

The iCloud directory `bluewalk/mijnsimpel` is modelled as an association
list from file name to file contents; writing prepends (lookup finds the
newest entry, i.e. overwrite semantics).  `getCachedData` only calls
read-only file operations in the source, so it is a pure reader. -/

/-- JavaScript faults the script can raise, named by their origin. -/
inductive JsError where
  /-- The operator dismissed the credential prompt (`promptForCredentials`). -/
  | userCancelled
  /-- Non-200 from the login endpoint (`fetchToken`). -/
  | loginFailed (status : Nat)
  /-- Property access on `undefined` or `null`, or a non-string argument
  passed to the host's `writeString`. -/
  | typeError
  /-- `writeString` applied to `undefined` (`JSON.stringify(undefined)`). -/
  | writeTypeError
  /-- `JSON.parse` / `loadJSON` applied to text that is not JSON. -/
  | jsonParseError
  /-- The transport layer failed (a request threw before returning). -/
  | transportError

/-- The persistent file store: file name to file contents. -/
abbrev Cache := List (String × String)

/-- Source `getCachedData`: `undefined` (`none`) if the file does not
exist, otherwise `JSON.parse` of its contents (which can throw). -/
def getCachedData (cache : Cache) (fileName : String) :
    Except JsError (Option Json) :=
  match List.lookup fileName cache with
  | none => .ok none
  | some contents =>
    match jsonParse contents with
    | some v => .ok (some v)
    | none => .error .jsonParseError

/-- Source `cacheData`: `JSON.stringify` the value and write the file.
`JSON.stringify(undefined)` is `undefined`, and the host's typed
`writeString(filePath, content)` bridge rejects a non-string content
argument, so caching `undefined` throws and writes nothing. -/
def cacheData (cache : Cache) (fileName : String) (data : Option Json) :
    Except JsError Cache :=
  match jsonStringify data with
  | some contents => .ok ((fileName, contents) :: cache)
  | none => .error .writeTypeError

/-! ## JavaScript value operations used by the script -/

/-- JavaScript property access `v.key` as the script performs it on
parsed JSON: throws `TypeError` on `undefined` and `null`, yields the
field on objects, and `undefined` on other primitives. -/
def jsGetProp : Option Json → String → Except JsError (Option Json)
  | none, _ => .error .typeError
  | some .null, _ => .error .typeError
  | some (.obj fields), key => .ok (List.lookup key fields)
  | some _, _ => .ok none

/-- JavaScript `Array.prototype.join`: empty string for `[]`, otherwise
the elements interleaved with the separator. -/
def jsJoin (sep : String) : List String → String
  | [] => ""
  | [x] => x
  | x :: xs => x ++ sep ++ jsJoin sep xs

mutual

/-- JavaScript string coercion of a parsed-JSON value in array position
(`null` becomes the empty string inside `Array.prototype.toString`). -/
def jsArrayElemStr : Json → String
  | .null => ""
  | .bool true => "true"
  | .bool false => "false"
  | .num i => String.mk (intToChars i)
  | .str s => s
  | .arr xs => jsArrElems xs
  | .obj _ => "[object Object]"

/-- Comma-joined coercion of array elements. -/
def jsArrElems : List Json → String
  | [] => ""
  | [v] => jsArrayElemStr v
  | v :: vs => jsArrayElemStr v ++ "," ++ jsArrElems vs

end

/-- JavaScript template-literal coercion of a possibly-undefined value. -/
def jsTemplateStr : Option Json → String
  | none => "undefined"
  | some .null => "null"
  | some v => jsArrayElemStr v

/-! ## Data model records -/

/-- One session cookie as replayed in the `Cookie` header. -/
structure Cookie where
  name : String
  value : String

/-- Credentials collected by the prompt. -/
structure Credentials where
  username : String
  password : String

/-- The JSON form of the cookie set as cached under `cookies.json`. -/
def cookiesToJson (cs : List Cookie) : Json :=
  .arr (cs.map fun c => .obj [("name", .str c.name), ("value", .str c.value)])

/-- The JSON form of credentials as cached under `credentials.json`. -/
def credsToJson (c : Credentials) : Json :=
  .obj [("username", .str c.username), ("password", .str c.password)]

/-- The Error Payload `\x7berrorCode: code\x7d` returned by `fetchData`. -/
def errorPayload (code : Int) : Json :=
  .obj [("errorCode", .num code)]

/-! ## The environment: host and network responses -/

/-- Outcome of one network request: a response, or a thrown transport
fault. -/
inductive NetResult (α : Type) where
  | ok (response : α)
  | fail

/-- The login endpoint's response: status code and `Set-Cookie` cookies. -/
structure LoginResponse where
  statusCode : Nat
  cookies : List Cookie

/-- One run's ambient world: what the prompt and each endpoint would
answer.  The claims quantify over all environments, so responses are
modelled as fixed per run. -/
structure Env where
  /-- `none` models the operator tapping Cancel. -/
  promptResult : Option Credentials
  /-- Response of `POST /login` (`req.load()` in `fetchToken`). -/
  login : NetResult LoginResponse
  /-- Body text answered by `GET /account/subscription-overview`
  (`req.loadJSON()` in `fetchSid` parses it). -/
  subOverview : NetResult String
  /-- Status and body text answered by the usage-summary endpoint. -/
  usage : NetResult (Nat × String)

/-- Observable events of a run, in source order. -/
inductive Event where
  /-- The credential alert was presented. -/
  | promptShown
  /-- A request to the login endpoint was issued. -/
  | netLogin
  /-- A request to the subscription-overview endpoint was issued. -/
  | netSubOverview
  /-- A request to the usage-summary endpoint was issued. -/
  | netUsage
deriving DecidableEq

/-! ## Stage functions -/

/-- Source `fetchToken(credentials)`: builds the login payload (reading
`credentials.username` / `credentials.password` can throw on malformed
cached credentials), posts it, requires HTTP 200, and caches the
response cookies under `cookies.json`.  Returns the emitted events, the
cache after the call, and the JS result (the function returns
`undefined`, so `Unit`). -/
def fetchToken (env : Env) (cache : Cache) (credsVal : Option Json) :
    List Event × Cache × Except JsError Unit :=
  match jsGetProp credsVal "username" with
  | .error e => ([], cache, .error e)
  | .ok _ =>
    match jsGetProp credsVal "password" with
    | .error e => ([], cache, .error e)
    | .ok _ =>
      match env.login with
      | .fail => ([Event.netLogin], cache, .error .transportError)
      | .ok resp =>
        if resp.statusCode ≠ 200 then
          ([Event.netLogin], cache, .error (.loginFailed resp.statusCode))
        else
          match cacheData cache "cookies.json" (some (cookiesToJson resp.cookies)) with
          | .ok cache2 => ([Event.netLogin], cache2, .ok ())
          | .error e => ([Event.netLogin], cache, .error e)

/-- `cookies.map(cookie => ...name=...value).join("; ")` on the raw
JavaScript cookies value: throws `TypeError` unless it is an array, and
each element's `name` / `value` access follows `jsGetProp`. -/
def cookiePartsJs : List Json → Except JsError (List String)
  | [] => .ok []
  | cookie :: rest =>
    match jsGetProp (some cookie) "name" with
    | .error e => .error e
    | .ok n =>
      match jsGetProp (some cookie) "value" with
      | .error e => .error e
      | .ok v =>
        match cookiePartsJs rest with
        | .error e => .error e
        | .ok parts => .ok ((jsTemplateStr n ++ "=" ++ jsTemplateStr v) :: parts)

/-- The serialized `Cookie` header the script builds in `fetchSid` and
`fetchData` (lines 99 and 117 of the source). -/
def cookieHeaderJs (cookiesVal : Option Json) : Except JsError String :=
  match cookiesVal with
  | some (.arr elems) =>
    match cookiePartsJs elems with
    | .error e => .error e
    | .ok parts => .ok (jsJoin "; " parts)
  | _ => .error .typeError

/-- Source `fetchSid(cookies)`: builds the cookie header, loads the
subscription overview as JSON, and caches
`json.mainSubscription.subscriptionId` under `sid.json`.  Any fault
(header construction, transport, JSON syntax, missing field, caching
`undefined`) propagates unhandled. -/
def fetchSid (env : Env) (cache : Cache) (cookiesVal : Option Json) :
    List Event × Cache × Except JsError Unit :=
  match cookieHeaderJs cookiesVal with
  | .error e => ([], cache, .error e)
  | .ok _ =>
    match env.subOverview with
    | .fail => ([Event.netSubOverview], cache, .error .transportError)
    | .ok body =>
      match jsonParse body with
      | none => ([Event.netSubOverview], cache, .error .jsonParseError)
      | some json =>
        match jsGetProp (some json) "mainSubscription" with
        | .error e => ([Event.netSubOverview], cache, .error e)
        | .ok ms =>
          match jsGetProp ms "subscriptionId" with
          | .error e => ([Event.netSubOverview], cache, .error e)
          | .ok sidVal =>
            match cacheData cache "sid.json" sidVal with
            | .ok cache2 => ([Event.netSubOverview], cache2, .ok ())
            | .error e => ([Event.netSubOverview], cache, .error e)

/-- Source `fetchData(sid, cookies)`: the whole body is wrapped in
`try/catch`; a 200 response is parsed and returned, any other status
yields `\x7berrorCode: status\x7d`, and any thrown transport or parse
fault yields `\x7berrorCode: -1\x7d`.  Never throws. -/
def fetchData (env : Env) (sidVal cookiesVal : Option Json) :
    List Event × Json :=
  match cookieHeaderJs cookiesVal with
  | .error _ => ([], errorPayload (-1))
  | .ok _ =>
    match env.usage with
    | .fail => ([Event.netUsage], errorPayload (-1))
    | .ok (status, body) =>
      if status = 200 then
        match jsonParse body with
        | some json => ([Event.netUsage, Event.netUsage], json)
        | none => ([Event.netUsage, Event.netUsage], errorPayload (-1))
      else ([Event.netUsage], errorPayload status)

/-! ## The orchestrator (`run`) -/

/-- Outcome of a (possibly aborted) run: the events that happened, the
cache afterwards, and either the value handed to the presentation layer
or the unhandled fault that ended the run. -/
structure RunResult where
  trace : List Event
  cache : Cache
  result : Except JsError Json

/-- Stage 4: the usage stage, never cached, never failing. -/
def runStage4 (env : Env) (cache : Cache) (sidVal cookiesVal : Option Json) :
    RunResult :=
  let r := fetchData env sidVal cookiesVal
  ⟨r.1, cache, .ok r.2⟩

/-- Stage 3: read `sid.json`; on a miss run `fetchSid` and re-read. -/
def runStage3 (env : Env) (cache : Cache) (cookiesVal : Option Json) :
    RunResult :=
  match getCachedData cache "sid.json" with
  | .error e => ⟨[], cache, .error e⟩
  | .ok (some sid) => runStage4 env cache (some sid) cookiesVal
  | .ok none =>
    match fetchSid env cache cookiesVal with
    | (ev, cache2, .error e) => ⟨ev, cache2, .error e⟩
    | (ev, cache2, .ok ()) =>
      match getCachedData cache2 "sid.json" with
      | .error e => ⟨ev, cache2, .error e⟩
      | .ok sid2 =>
        let r := runStage4 env cache2 sid2 cookiesVal
        ⟨ev ++ r.trace, r.cache, r.result⟩

/-- Stage 2: read `cookies.json`; on a miss run `fetchToken` (with the
stage-1 credentials value) and re-read. -/
def runStage2 (env : Env) (cache : Cache) (credsVal : Option Json) :
    RunResult :=
  match getCachedData cache "cookies.json" with
  | .error e => ⟨[], cache, .error e⟩
  | .ok (some cookies) => runStage3 env cache (some cookies)
  | .ok none =>
    match fetchToken env cache credsVal with
    | (ev, cache2, .error e) => ⟨ev, cache2, .error e⟩
    | (ev, cache2, .ok ()) =>
      match getCachedData cache2 "cookies.json" with
      | .error e => ⟨ev, cache2, .error e⟩
      | .ok cookies2 =>
        let r := runStage3 env cache2 cookies2
        ⟨ev ++ r.trace, r.cache, r.result⟩

/-- Source `run()` up to the presentation boundary: stage 1 reads
`credentials.json`, prompting and caching on a miss (a cancelled prompt
throws), then stages 2-4 as above.  The returned `result` is the JSON
value bound to `json` at line 193 of the source, or the unhandled fault
that aborted the run. -/
def run (env : Env) (cache0 : Cache) : RunResult :=
  match getCachedData cache0 "credentials.json" with
  | .error e => ⟨[], cache0, .error e⟩
  | .ok (some creds) => runStage2 env cache0 (some creds)
  | .ok none =>
    match env.promptResult with
    | none => ⟨[Event.promptShown], cache0, .error .userCancelled⟩
    | some creds =>
      match cacheData cache0 "credentials.json" (some (credsToJson creds)) with
      | .error e => ⟨[Event.promptShown], cache0, .error e⟩
      | .ok cache1 =>
        let r := runStage2 env cache1 (some (credsToJson creds))
        ⟨Event.promptShown :: r.trace, r.cache, r.result⟩

/-! ## Helper lemmas about the cache and the cookie header -/

theorem cacheData_some (cache : Cache) (n : String) (v : Json) :
    cacheData cache n (some v) = .ok ((n, String.mk (stringifyChars v)) :: cache) := rfl

theorem lookup_cons_ne {m n : String} (s : String) (cache : Cache) (h : m ≠ n) :
    List.lookup m ((n, s) :: cache) = List.lookup m cache := by
  simp [List.lookup, beq_eq_false_iff_ne.mpr h]

theorem jsTemplateStr_str (s : String) : jsTemplateStr (some (.str s)) = s := rfl

theorem cookiePartsJs_map (cs : List Cookie) :
    cookiePartsJs (cs.map fun c => Json.obj [("name", .str c.name), ("value", .str c.value)]) =
      .ok (cs.map fun c => c.name ++ "=" ++ c.value) := by
  induction cs with
  | nil => rfl
  | cons c cs ih =>
    simp [cookiePartsJs, jsGetProp, List.lookup, jsTemplateStr_str, ih]

theorem cookieHeaderJs_cookiesToJson (cs : List Cookie) :
    cookieHeaderJs (some (cookiesToJson cs)) =
      .ok (jsJoin "; " (cs.map fun c => c.name ++ "=" ++ c.value)) := by
  simp [cookieHeaderJs, cookiesToJson, cookiePartsJs_map]

theorem go_step (sep acc x : String) (xs : List String) :
    String.intercalate.go acc sep (x :: xs) =
      String.intercalate.go (acc ++ sep ++ x) sep xs := rfl

theorem go_eq (sep : String) : ∀ (l : List String) (acc : String),
    String.intercalate.go acc sep l =
      match l with
      | [] => acc
      | x :: xs => acc ++ sep ++ jsJoin sep (x :: xs) := by
  intro l
  induction l with
  | nil => intro acc; simp [String.intercalate.go]
  | cons x xs ih =>
    intro acc
    rw [go_step]
    cases xs with
    | nil => rw [ih]; simp [jsJoin]
    | cons y t => rw [ih]; simp [jsJoin, String.append_assoc]

/-- `Array.prototype.join` agrees with `String.intercalate`. -/
theorem jsJoin_eq_intercalate (sep : String) (l : List String) :
    jsJoin sep l = String.intercalate sep l := by
  cases l with
  | nil => rfl
  | cons x xs =>
    rw [String.intercalate]
    rw [go_eq]
    cases xs with
    | nil => simp [jsJoin]
    | cons y t => simp [jsJoin, String.append_assoc]

/-! ## Claims about the cache store -/

/-- C8: for every JSON-serializable value `v` and every name `n`,
`cacheData n v` followed by `getCachedData n` returns a value deep-equal
(here: equal) to `v`. -/
theorem cache_roundtrip (cache : Cache) (n : String) (v : Json) :
    ∃ cache2, cacheData cache n (some v) = .ok cache2 ∧
      getCachedData cache2 n = .ok (some v) := by
  refine ⟨(n, String.mk (stringifyChars v)) :: cache, rfl, ?_⟩
  simp [getCachedData, List.lookup, jsonParse_stringify]

/-- C9: reading a name that has never been written returns the
absent-marker (`undefined`), not an exception. -/
theorem getCachedData_miss (cache : Cache) (n : String)
    (h : List.lookup n cache = none) : getCachedData cache n = .ok none := by
  simp [getCachedData, h]

/-- C9 witness: a fresh store misses. -/
theorem getCachedData_miss_witness :
    getCachedData [] "credentials.json" = .ok none :=
  getCachedData_miss [] "credentials.json" rfl

/-- C10: writing under one name leaves every other name's read result
unchanged; `getCachedData` itself is a pure reader of the store (it is
modelled without a store output because the source only calls read-only
file operations). -/
theorem cacheData_frame (cache : Cache) (n m : String) (v : Option Json)
    (cache2 : Cache) (hnm : n ≠ m) (h : cacheData cache n v = .ok cache2) :
    getCachedData cache2 m = getCachedData cache m := by
  cases v with
  | none => exact absurd h (by simp [cacheData, jsonStringify])
  | some w =>
    rw [cacheData_some] at h
    cases h
    rw [getCachedData, getCachedData, lookup_cons_ne _ _ (Ne.symm hnm)]

/-- C10 witness: a write under `a` does not disturb reads of `b`. -/
theorem cacheData_frame_witness :
    getCachedData [("a", String.mk ['n', 'u', 'l', 'l'])] "b" =
      getCachedData [] "b" :=
  cacheData_frame [] "a" "b" (some Json.null)
    [("a", String.mk ['n', 'u', 'l', 'l'])] (by decide) rfl

/-! ## Claim about the cookie header -/

/-- C7: the `Cookie` header is the `name=value` pairs joined by a
semicolon-space separator in input order; in particular
`[a=1, b=2]` serializes to exactly `a=1; b=2`. -/
theorem cookieHeader_spec :
    (∀ cs : List Cookie, cookieHeaderJs (some (cookiesToJson cs)) =
      .ok (String.intercalate "; " (cs.map fun c => c.name ++ "=" ++ c.value))) ∧
    cookieHeaderJs (some (cookiesToJson [⟨"a", "1"⟩, ⟨"b", "2"⟩])) = .ok "a=1; b=2" := by
  constructor
  · intro cs
    rw [cookieHeaderJs_cookiesToJson, jsJoin_eq_intercalate]
  · rfl

/-! ## Claims about the session acquirer, usage fetcher and resolver -/

/-- C2: for credentials and a login response with any status other than
200, `fetchToken` fails with `LoginFailed` carrying that status, and the
cache (in particular the `cookies.json` entry) is unchanged. -/
theorem fetchToken_non200 (env : Env) (cache : Cache) (creds : Credentials)
    (resp : LoginResponse) (hr : env.login = .ok resp) (hs : resp.statusCode ≠ 200) :
    fetchToken env cache (some (credsToJson creds)) =
      ([Event.netLogin], cache, .error (.loginFailed resp.statusCode)) := by
  simp [fetchToken, jsGetProp, credsToJson, List.lookup, hr, hs]

/-- C2 witness: a 500 response fails with `LoginFailed 500`, no write. -/
theorem fetchToken_non200_witness :
    fetchToken ⟨none, .ok ⟨500, []⟩, .fail, .fail⟩ [] (some (credsToJson ⟨"u", "p"⟩)) =
      ([Event.netLogin], [], .error (.loginFailed 500)) :=
  fetchToken_non200 _ _ ⟨"u", "p"⟩ ⟨500, []⟩ rfl (by decide)

/-- C5: for every subscription id, cookie sequence and usage response
with status other than 200, `fetchData` returns the Error Payload
carrying that status instead of propagating a fault. -/
theorem fetchData_non200 (env : Env) (sidVal : Option Json) (cs : List Cookie)
    (status : Nat) (body : String) (hu : env.usage = .ok (status, body))
    (hs : status ≠ 200) :
    (fetchData env sidVal (some (cookiesToJson cs))).2 =
      errorPayload status := by
  simp [fetchData, cookieHeaderJs_cookiesToJson, hu, hs]

/-- C5 witness: the spec's 403 scenario yields `errorCode 403`. -/
theorem fetchData_non200_witness :
    (fetchData ⟨none, .fail, .fail, .ok (403, "")⟩ (some (.str "SUB123"))
      (some (cookiesToJson [⟨"sess", "abc"⟩]))).2 = errorPayload 403 :=
  fetchData_non200 _ _ [⟨"sess", "abc"⟩] 403 "" rfl (by decide)

/-- C6: a transport fault on the usage request, or a parse failure of
its 200 response, makes `fetchData` return `errorCode -1` instead of
propagating the fault. -/
theorem fetchData_fault_neg1 (env : Env) (sidVal : Option Json) (cs : List Cookie) :
    (env.usage = .fail →
      (fetchData env sidVal (some (cookiesToJson cs))).2 = errorPayload (-1)) ∧
    (∀ body, env.usage = .ok (200, body) → jsonParse body = none →
      (fetchData env sidVal (some (cookiesToJson cs))).2 = errorPayload (-1)) := by
  constructor
  · intro h
    simp [fetchData, cookieHeaderJs_cookiesToJson, h]
  · intro body h hp
    simp [fetchData, cookieHeaderJs_cookiesToJson, h, hp]

/-- C6 witness: a transport fault and a non-JSON 200 body both yield
`errorCode -1`. -/
theorem fetchData_fault_neg1_witness :
    (fetchData ⟨none, .fail, .fail, .fail⟩ (some (.str "S"))
      (some (cookiesToJson [⟨"sess", "abc"⟩]))).2 = errorPayload (-1) ∧
    (fetchData ⟨none, .fail, .fail, .ok (200, "nope")⟩ (some (.str "S"))
      (some (cookiesToJson [⟨"sess", "abc"⟩]))).2 = errorPayload (-1) :=
  ⟨(fetchData_fault_neg1 ⟨none, .fail, .fail, .fail⟩ (some (.str "S"))
      [⟨"sess", "abc"⟩]).1 rfl,
   (fetchData_fault_neg1 ⟨none, .fail, .fail, .ok (200, "nope")⟩ (some (.str "S"))
      [⟨"sess", "abc"⟩]).2 "nope" rfl rfl⟩

theorem jsGetProp_error (v : Option Json) (key : String) {e : JsError}
    (h : jsGetProp v key = .error e) : e = .typeError := by
  cases v with
  | none =>
    simp [jsGetProp] at h
    exact h.symm
  | some j =>
    cases j <;> simp [jsGetProp] at h <;> exact h.symm

/-- C1: for every subscription-overview response in which the expected
subscription-id field (`mainSubscription.subscriptionId`) is absent,
`fetchSid` fails with an unhandled fault — the undefined-field fault the
spec's taxonomy names `ParseFailed` — and no subscription id is cached
(the cache is returned unchanged). -/
theorem fetchSid_absent_field (env : Env) (cache : Cache) (cookiesVal : Option Json)
    (hdr : String) (hh : cookieHeaderJs cookiesVal = .ok hdr)
    (body : String) (json : Json) (hb : env.subOverview = .ok body)
    (hp : jsonParse body = some json)
    (habs : ∀ sid : Json,
      ¬ ((jsGetProp (some json) "mainSubscription").bind
          (fun ms => jsGetProp ms "subscriptionId") = .ok (some sid))) :
    fetchSid env cache cookiesVal =
        ([Event.netSubOverview], cache, .error .typeError) ∨
      fetchSid env cache cookiesVal =
        ([Event.netSubOverview], cache, .error .writeTypeError) := by
  cases h1 : jsGetProp (some json) "mainSubscription" with
  | error e =>
    have he := jsGetProp_error _ _ h1
    subst he
    left
    simp [fetchSid, hh, hb, hp, h1]
  | ok ms =>
    cases h2 : jsGetProp ms "subscriptionId" with
    | error e =>
      have he := jsGetProp_error _ _ h2
      subst he
      left
      simp [fetchSid, hh, hb, hp, h1, h2]
    | ok sidVal =>
      cases sidVal with
      | some sid =>
        exact absurd (by simp [Except.bind, h1, h2]) (habs sid)
      | none =>
        right
        simp [fetchSid, hh, hb, hp, h1, h2, cacheData, jsonStringify]

/-- C1 witness: an empty-object overview response (`mainSubscription`
absent) makes `fetchSid` fail and leaves the cache unchanged. -/
theorem fetchSid_absent_field_witness :
    fetchSid ⟨none, .fail, .ok "\x7b\x7d", .fail⟩ [] (some (cookiesToJson [])) =
        ([Event.netSubOverview], [], .error .typeError) ∨
      fetchSid ⟨none, .fail, .ok "\x7b\x7d", .fail⟩ [] (some (cookiesToJson [])) =
        ([Event.netSubOverview], [], .error .writeTypeError) :=
  fetchSid_absent_field ⟨none, .fail, .ok "\x7b\x7d", .fail⟩ [] (some (cookiesToJson []))
    "" rfl "\x7b\x7d" (.obj []) rfl rfl
    (by intro sid h; simp [jsGetProp, List.lookup, Except.bind] at h)

/-! ## Claims about the orchestrator -/

/-- C3: with an empty credentials cache and a cancelled prompt, the run
terminates with the cancellation fault, the trace holds only the prompt
event (no network request), and the cache — in particular
`credentials.json` — is untouched. -/
theorem run_cancel_aborts (env : Env) (cache0 : Cache)
    (hc : List.lookup "credentials.json" cache0 = none)
    (hp : env.promptResult = none) :
    run env cache0 = ⟨[Event.promptShown], cache0, .error .userCancelled⟩ := by
  simp [run, getCachedData, hc, hp]

/-- C3 witness: cancelling on a fresh cache aborts the run cleanly. -/
theorem run_cancel_aborts_witness :
    run ⟨none, .fail, .fail, .fail⟩ [] =
      ⟨[Event.promptShown], [], .error .userCancelled⟩ :=
  run_cancel_aborts ⟨none, .fail, .fail, .fail⟩ [] rfl rfl

theorem fetchSid_events (env : Env) (cache : Cache) (v : Option Json) :
    (fetchSid env cache v).1 = [] ∨ (fetchSid env cache v).1 = [Event.netSubOverview] := by
  unfold fetchSid
  repeat' split
  all_goals simp

theorem netLogin_not_fetchData (env : Env) (s v : Option Json) :
    Event.netLogin ∉ (fetchData env s v).1 := by
  unfold fetchData
  repeat' split
  all_goals simp

theorem netLogin_not_stage4 (env : Env) (cache : Cache) (s v : Option Json) :
    Event.netLogin ∉ (runStage4 env cache s v).trace := by
  simp only [runStage4]
  exact netLogin_not_fetchData env s v

theorem netLogin_not_stage3 (env : Env) (cache : Cache) (v : Option Json) :
    Event.netLogin ∉ (runStage3 env cache v).trace := by
  have hfs := fetchSid_events env cache v
  unfold runStage3
  split
  · simp
  · exact netLogin_not_stage4 _ _ _ _
  · rcases h : fetchSid env cache v with ⟨ev, cache2, r⟩
    rw [h] at hfs
    simp only at hfs
    cases r with
    | error e =>
      simp only
      rcases hfs with h' | h' <;> simp [h']
    | ok u =>
      cases u
      simp only
      split
      · rcases hfs with h' | h' <;> simp [h']
      · simp only [RunResult.trace, List.mem_append]
        intro hmem
        rcases hmem with hmem | hmem
        · rcases hfs with h' | h' <;> simp [h'] at hmem
        · exact netLogin_not_stage4 _ _ _ _ hmem

theorem netLogin_not_stage2_hit (env : Env) (cache : Cache) (credsVal : Option Json)
    (s : String) (hc : List.lookup "cookies.json" cache = some s) :
    Event.netLogin ∉ (runStage2 env cache credsVal).trace := by
  unfold runStage2
  cases hp : jsonParse s with
  | none => simp [getCachedData, hc, hp]
  | some w =>
    simp only [getCachedData, hc, hp]
    exact netLogin_not_stage3 env cache (some w)

/-- C4: whenever `cookies.json` already holds a value, a run never
invokes the Session Acquirer — no request to the login endpoint appears
in the trace, whatever the credentials cache holds and whatever happens
later. -/
theorem run_cookies_cached_no_login (env : Env) (cache0 : Cache) (s : String)
    (hc : List.lookup "cookies.json" cache0 = some s) :
    Event.netLogin ∉ (run env cache0).trace := by
  unfold run
  cases h1 : getCachedData cache0 "credentials.json" with
  | error e => simp
  | ok credsOpt =>
    cases credsOpt with
    | some creds =>
      simp only
      exact netLogin_not_stage2_hit env cache0 (some creds) s hc
    | none =>
      cases hp : env.promptResult with
      | none => simp
      | some creds =>
        simp only [cacheData_some]
        simp only [RunResult.trace, List.mem_cons, not_or]
        refine ⟨by simp, ?_⟩
        refine netLogin_not_stage2_hit env _ (some (credsToJson creds)) s ?_
        rw [lookup_cons_ne _ _ (by decide)]
        exact hc

/-- C4 witness: with `cookies.json` present, no login request occurs. -/
theorem run_cookies_cached_no_login_witness :
    Event.netLogin ∉ (run ⟨none, .fail, .fail, .fail⟩ [("cookies.json", "[]")]).trace :=
  run_cookies_cached_no_login ⟨none, .fail, .fail, .fail⟩ [("cookies.json", "[]")] "[]" rfl

end MijnSimpel
